import Mathlib

/-!
Verification of the gochain blockchain core against its specification.

The Go source is shallowly embedded: byte slices become `List Nat`, Go
`int` becomes `Int`, the badger-backed chain becomes the list of blocks in
the order the iterator yields them (tip first, genesis last), and the Go
map-with-append `map[string][]int` (keyed by the hex encoding of a
transaction id, which is injective on byte slices) becomes an association
list keyed by the raw id bytes.  Calls that `log.Panic` are modelled as
error results.  The cryptographic primitives (sha256 of a gob encoding,
ripemd160∘sha256 public-key hashing, base58 decoding, ECDSA sign/verify)
are external libraries; they are abstracted into a `Crypto` record of
function parameters so that every theorem is stated for an arbitrary
instantiation, and concrete executable instantiations witness the
hypothesised properties.
-/

namespace GoChain

/-- A Go byte slice.  Go's `nil` and empty slice are identified (both have
length 0, which is the only property the embedded code observes). -/
abbrev Bytes := List Nat

/-- `TxInput` from tx.go: reference to a prior output plus signing data. -/
structure TxInput where
  id : Bytes
  out : Int
  signature : Bytes
  pubKey : Bytes
deriving DecidableEq, Repr

/-- `TxOutput` from tx.go: a value locked to a public-key hash. -/
structure TxOutput where
  value : Int
  pubKeyHash : Bytes
deriving DecidableEq, Repr

/-- `Transaction` from transaction.go. -/
structure Transaction where
  id : Bytes
  inputs : List TxInput
  outputs : List TxOutput
deriving DecidableEq, Repr

/-- The transactions-era `Block` from block.go. -/
structure Block where
  hash : Bytes
  transactions : List Transaction
  prevHash : Bytes
  nonce : Int
deriving DecidableEq, Repr

/-- A wallet entry: ECDSA private key (abstract handle) and raw public key. -/
structure Wallet where
  privateKey : Nat
  publicKey : Bytes
deriving DecidableEq, Repr

/-- Abstracted cryptographic primitives used by the embedded code.
`shaTx` stands for sha256 of the gob encoding of a `Transaction`,
`sha` for sha256 on bytes, `pkh` for `wallet.GeneratePublicKeyHash`
(ripemd160 of sha256), `b58decode` for `base58.Decode`, `checksumLen`
for the `CHECKSUM_LENGTH` environment value, `ecdsaSign priv digest` for
the byte concatenation `r.Bytes() ++ s.Bytes()` of one run of
`ecdsa.Sign`, and `ecdsaVerify x y digest r s` for `ecdsa.Verify` on the
public key assembled from big-integers `x`, `y`. -/
structure Crypto where
  shaTx : Transaction → Bytes
  sha : Bytes → Bytes
  pkh : Bytes → Bytes
  b58decode : String → Bytes
  checksumLen : Nat
  ecdsaSign : Nat → Bytes → Bytes
  ecdsaVerify : Nat → Nat → Bytes → Nat → Nat → Bool

/-- `big.Int.SetBytes`: big-endian interpretation of a byte slice. -/
def bytesToNat (b : Bytes) : Nat := b.foldl (fun a x => a * 256 + x) 0

/-- `(tx Transaction) GenerateHash`: clear the ID field (value receiver, so
the original is untouched) and hash the serialized transaction. -/
def GenerateHash (c : Crypto) (tx : Transaction) : Bytes :=
  c.shaTx { tx with id := [] }

/-- Go's built-in `copy(dst, src)`: copies `min (len dst) (len src)`
elements into `dst` and leaves the rest of `dst`. -/
def golangCopy (dst src : List TxOutput) : List TxOutput :=
  src.take dst.length ++ dst.drop src.length

/-- `TrimmedCopy` from transaction.go: a fresh transaction (zero-valued, so
its id is nil), inputs re-built with signature and public key cleared, and
`copy(newTx.Outputs, tx.Outputs)` into the fresh (nil) outputs slice. -/
def TrimmedCopy (tx : Transaction) : Transaction :=
  { id := []
  , inputs := tx.inputs.map (fun i =>
      { id := i.id, out := i.out, signature := [], pubKey := [] })
  , outputs := golangCopy [] tx.outputs }

/-- `IsCoinbase`: exactly one input, empty reference id, output index -1. -/
def IsCoinbase (tx : Transaction) : Bool :=
  match tx.inputs with
  | [i] => i.id.length == 0 && i.out == -1
  | _ => false

/-- `(out TxOutput) IsLockedWithKey`: byte equality with the given hash. -/
def IsLockedWithKey (out : TxOutput) (pubKeyHash : Bytes) : Bool :=
  out.pubKeyHash == pubKeyHash

/-- `(in TxInput) UsesKey`: hash the input's public key and compare. -/
def UsesKey (c : Crypto) (i : TxInput) (pubKeyHash : Bytes) : Bool :=
  c.pkh i.pubKey == pubKeyHash

/-- `(out TxOutput) Lock`: base58-decode the address and strip the leading
version byte and the trailing checksum bytes.  The Go slice expression
`pubKeyHash[1 : len(pubKeyHash)-checksumLen]` panics when the decoded
slice is shorter than `checksumLen + 1`; that panic is `none`. -/
def Lock (c : Crypto) (address : String) : Option Bytes :=
  if c.checksumLen + 1 ≤ (c.b58decode address).length then
    some (((c.b58decode address).drop 1).take ((c.b58decode address).length - c.checksumLen - 1))
  else none

/-- `NewTXOutput`: a fresh output locked to the decoded address (`none`
when `Lock` panics). -/
def NewTXOutput (c : Crypto) (value : Int) (address : String) : Option TxOutput :=
  match Lock c address with
  | none => none
  | some h => some { value := value, pubKeyHash := h }

/-- `GenerateChecksum` from wallet.go: sha256 of sha256 of the payload,
truncated to the checksum length.  (The wallet package's `checksumLen`
constant and the `CHECKSUM_LENGTH` environment value read by `Lock` are
modelled by the same `Crypto.checksumLen` parameter; the program runs
with both equal to 4.) -/
def GenerateChecksum (c : Crypto) (payload : Bytes) : Bytes :=
  (c.sha (c.sha payload)).take c.checksumLen

/-- Modelled from the spec: `wallet.ValidateAddress` is not under `src/`
(only its callers in cli.go are).  Per §3, an address is valid iff
recomputing the checksum of its decoded payload (version byte followed by
the public-key hash) matches the trailing checksum bytes; an address whose
decoded form is too short to hold a version byte and a checksum is not
valid. -/
def ValidateAddress (c : Crypto) (address : String) : Bool :=
  if c.checksumLen + 1 ≤ (c.b58decode address).length then
    (c.b58decode address).drop ((c.b58decode address).length - c.checksumLen) ==
      GenerateChecksum c
        ((c.b58decode address).take 1 ++
          ((c.b58decode address).drop 1).take ((c.b58decode address).length - c.checksumLen - 1))
  else false

/-- The Go zero value `Transaction{}`, returned by a map lookup miss. -/
def zeroTx : Transaction := { id := [], inputs := [], outputs := [] }

/-- Lookup in the `prevTXs` map (`map[string]Transaction` keyed by the hex
id); a missing key yields the zero transaction. -/
def prevLookup (m : List (Bytes × Transaction)) (k : Bytes) : Transaction :=
  match m.lookup k with
  | some t => t
  | none => zeroTx

/-- Indexing `prevTX.Outputs[in.Out]`: Go panics when the index is out of
range, so the result is an `Option`. -/
def outAt (outs : List TxOutput) (i : Int) : Option TxOutput :=
  if i < 0 then none else outs.get? i.toNat

/-- In-place update of one slice element, as `xs[i] = f xs[i]`. -/
def modifyIdx {α : Type} (f : α → α) : Nat → List α → List α
  | _, [] => []
  | 0, a :: rest => f a :: rest
  | n + 1, a :: rest => a :: modifyIdx f n rest

/-- Panics modelled as error results.  `nilWallet` is the nil-pointer
dereference on a missing wallet entry, `badOutIndex` and `badAddress` are
slice-bounds panics, `invalidAddress` is the cli's address-validation
panic. -/
inductive TxErr where
  | insufficientFunds
  | danglingRef
  | badOutIndex
  | nilWallet
  | badAddress
  | invalidAddress
deriving DecidableEq, Repr

/-- Result of an operation producing a transaction, or a panic. -/
inductive TxResult where
  | err (e : TxErr)
  | ok (tx : Transaction)
deriving DecidableEq, Repr

/-- Result of `Verify`: a boolean, or a panic. -/
inductive VerifyResult where
  | err (e : TxErr)
  | ok (b : Bool)
deriving DecidableEq, Repr

/-- The guard loop shared by `Sign` and `Verify`: every input's referenced
transaction must be present with a non-nil id, else the call panics. -/
def signCheck (m : List (Bytes × Transaction)) : List TxInput → Bool
  | [] => true
  | i :: rest => decide ((prevLookup m i.id).id ≠ []) && signCheck m rest

/-- The body of `Sign`'s per-input loop.  `txCopy` is threaded exactly as
the source mutates it: input `inID`'s signature is set nil and its public
key set to the referenced output's lock hash, the copy's id is recomputed
(`GenerateHash` ignores the stored id), the public key is cleared again,
and the signature of input `inID` of the ORIGINAL transaction `tx` is set
to the ECDSA signature bytes of the digest. -/
def signLoop (c : Crypto) (priv : Nat) (m : List (Bytes × Transaction)) :
    Nat → Nat → Transaction → Transaction → TxResult
  | 0, _, _, tx => .ok tx
  | fuel + 1, inID, txCopy, tx =>
    match txCopy.inputs.get? inID with
    | none => .ok tx
    | some i =>
      match outAt (prevLookup m i.id).outputs i.out with
      | none => .err .badOutIndex
      | some prevOut =>
        let txCopy1 : Transaction :=
          { txCopy with inputs := modifyIdx (fun j => { j with signature := [], pubKey := prevOut.pubKeyHash }) inID txCopy.inputs }
        let digest := GenerateHash c txCopy1
        let txCopy3 : Transaction :=
          { txCopy1 with
            id := digest
            inputs := modifyIdx (fun j => { j with pubKey := [] }) inID txCopy1.inputs }
        let tx' : Transaction :=
          { tx with inputs := modifyIdx (fun j => { j with signature := c.ecdsaSign priv digest }) inID tx.inputs }
        signLoop c priv m fuel (inID + 1) txCopy3 tx'

/-- `(tx *Transaction) Sign` from transaction.go. -/
def Sign (c : Crypto) (priv : Nat) (m : List (Bytes × Transaction))
    (tx : Transaction) : TxResult :=
  if IsCoinbase tx then .ok tx
  else if signCheck m tx.inputs then
    signLoop c priv m (TrimmedCopy tx).inputs.length 0 (TrimmedCopy tx) tx
  else .err .danglingRef

/-- The body of `Verify`'s per-input loop.  Crucially, the loop variable
`in` ranges over `txCopy.Inputs` — the TRIMMED copy — so the signature and
public key read below are the cleared ones (mutations made during earlier
iterations of the loop are undone before the next iteration starts, so
each element is read in its trimmed state, as in the source). -/
def verifyLoop (c : Crypto) (m : List (Bytes × Transaction)) :
    Nat → Nat → Transaction → VerifyResult
  | 0, _, _ => .ok true
  | fuel + 1, inID, txCopy =>
    match txCopy.inputs.get? inID with
    | none => .ok true
    | some i =>
      match outAt (prevLookup m i.id).outputs i.out with
      | none => .err .badOutIndex
      | some prevOut =>
        let txCopy1 : Transaction :=
          { txCopy with inputs := modifyIdx (fun j => { j with signature := [], pubKey := prevOut.pubKeyHash }) inID txCopy.inputs }
        let digest := GenerateHash c txCopy1
        let txCopy3 : Transaction :=
          { txCopy1 with
            id := digest
            inputs := modifyIdx (fun j => { j with pubKey := [] }) inID txCopy1.inputs }
        if c.ecdsaVerify
            (bytesToNat (i.pubKey.take (i.pubKey.length / 2)))
            (bytesToNat (i.pubKey.drop (i.pubKey.length / 2)))
            digest
            (bytesToNat (i.signature.take (i.signature.length / 2)))
            (bytesToNat (i.signature.drop (i.signature.length / 2))) then
          verifyLoop c m fuel (inID + 1) txCopy3
        else .ok false

/-- `(tx *Transaction) Verify` from transaction.go. -/
def Verify (c : Crypto) (m : List (Bytes × Transaction))
    (tx : Transaction) : VerifyResult :=
  if IsCoinbase tx then .ok true
  else if signCheck m tx.inputs then
    verifyLoop c m (TrimmedCopy tx).inputs.length 0 (TrimmedCopy tx)
  else .err .danglingRef

/-! ## Chain traversal (blockchain.go)

A chain value is the sequence of blocks the badger iterator yields,
tip first; the loops below stop after the first block whose `prevHash`
is empty, exactly as the `len(block.PrevHash) == 0` breaks do. -/

/-- The spent-output map `map[string][]int`, keyed by raw tx id bytes. -/
abbrev SpentMap := List (Bytes × List Int)

/-- `spentTxOutputs[txID]` (empty when the key is absent). -/
def spentLookup (m : SpentMap) (k : Bytes) : List Int :=
  match m.lookup k with
  | some v => v
  | none => []

/-- `m[k] = append(m[k], v)`. -/
def updAssoc : SpentMap → Bytes → Int → SpentMap
  | [], k, v => [(k, [v])]
  | (k', vs) :: rest, k, v =>
    if k' = k then (k', vs ++ [v]) :: rest
    else (k', vs) :: updAssoc rest k v

/-- The `Outputs:` labelled loop of `FindUnspentTransactions`: walk the
outputs of `tx`; skip an output whose index is recorded as spent
(`continue Outputs`); append the whole transaction once per remaining
output locked with the key. -/
def outputsScan (h : Bytes) (tx : Transaction) (spent : List Int) :
    Nat → List TxOutput → List Transaction
  | _, [] => []
  | idx, out :: rest =>
    (if (idx : Int) ∈ spent then []
     else if IsLockedWithKey out h then [tx] else []) ++
    outputsScan h tx spent (idx + 1) rest

/-- The inputs loop of `FindUnspentTransactions`: record each input that
uses the key as spending `(in.ID, in.Out)`. -/
def inputsScan (c : Crypto) (h : Bytes) : List TxInput → SpentMap → SpentMap
  | [], m => m
  | i :: rest, m =>
    inputsScan c h rest (if UsesKey c i h then updAssoc m i.id i.out else m)

/-- Processing of one transaction inside the block loop: outputs are
scanned against the spent map as it stood BEFORE this transaction, then
(unless it is a coinbase) its inputs extend the spent map. -/
def scanTx (c : Crypto) (h : Bytes) (st : List Transaction × SpentMap)
    (tx : Transaction) : List Transaction × SpentMap :=
  (st.1 ++ outputsScan h tx (spentLookup st.2 tx.id) 0 tx.outputs,
   if IsCoinbase tx then st.2 else inputsScan c h tx.inputs st.2)

/-- The block loop: one block at a time, breaking after the genesis block
(empty `prevHash`). -/
def scanBlocks (c : Crypto) (h : Bytes) :
    List Block → List Transaction × SpentMap → List Transaction × SpentMap
  | [], st => st
  | b :: rest, st =>
    if b.prevHash = [] then b.transactions.foldl (scanTx c h) st
    else scanBlocks c h rest (b.transactions.foldl (scanTx c h) st)

/-- `FindUnspentTransactions` from blockchain.go. -/
def FindUnspentTransactions (c : Crypto) (chain : List Block) (h : Bytes) :
    List Transaction :=
  (scanBlocks c h chain ([], [])).1

/-- `FindUnspentTxOutputs` from blockchain.go: for every transaction
returned by `FindUnspentTransactions`, re-emit every output locked with
the key. -/
def FindUnspentTxOutputs (c : Crypto) (chain : List Block) (h : Bytes) :
    List TxOutput :=
  (FindUnspentTransactions c chain h).foldl
    (fun acc tx => acc ++ tx.outputs.filter (fun o => IsLockedWithKey o h)) []

/-- The spendable-selection map (same shape as the spent map). -/
abbrev Sel := List (Bytes × List Int)

/-- The inner loop of `FindSpendableOutputs` for one transaction's outputs:
accumulate matching outputs while `accumulated < amount`; once the
accumulated total reaches the amount, `break Work` (flag `true`). -/
def fsoOutputs (h : Bytes) (amount : Int) (txid : Bytes) :
    List TxOutput → Nat → Int → Sel → Int × Sel × Bool
  | [], _, acc, sel => (acc, sel, false)
  | out :: rest, idx, acc, sel =>
    if IsLockedWithKey out h && decide (acc < amount) then
      if amount ≤ acc + out.value then
        (acc + out.value, updAssoc sel txid (idx : Int), true)
      else
        fsoOutputs h amount txid rest (idx + 1) (acc + out.value)
          (updAssoc sel txid (idx : Int))
    else fsoOutputs h amount txid rest (idx + 1) acc sel

/-- The `Work:` labelled loop of `FindSpendableOutputs` over the unspent
transactions. -/
def fsoTxs (h : Bytes) (amount : Int) : List Transaction → Int → Sel → Int × Sel
  | [], acc, sel => (acc, sel)
  | tx :: rest, acc, sel =>
    match fsoOutputs h amount tx.id tx.outputs 0 acc sel with
    | (acc', sel', true) => (acc', sel')
    | (acc', sel', false) => fsoTxs h amount rest acc' sel'

/-- `FindSpendableOutputs` from blockchain.go. -/
def FindSpendableOutputs (c : Crypto) (chain : List Block) (h : Bytes)
    (amount : Int) : Int × Sel :=
  fsoTxs h amount (FindUnspentTransactions c chain h) 0 []

/-- `FindTransaction` from blockchain.go: first transaction of the chain
(tip to genesis) whose id matches; `none` models the returned error. -/
def FindTransaction : List Block → Bytes → Option Transaction
  | [], _ => none
  | b :: rest, i =>
    match b.transactions.find? (fun tx => tx.id == i) with
    | some tx => some tx
    | none => if b.prevHash = [] then none else FindTransaction rest i

/-- The `prevTXs` map built by `SignTransaction`/`VerifyTransaction`: one
`FindTransaction` per input, keyed by the found transaction's id; `none`
models the panic on a dangling reference. -/
def collectPrevTXs (chain : List Block) :
    List TxInput → Option (List (Bytes × Transaction))
  | [] => some []
  | i :: rest =>
    match FindTransaction chain i.id with
    | none => none
    | some p =>
      match collectPrevTXs chain rest with
      | none => none
      | some m => some ((p.id, p) :: m)

/-- `SignTransaction` from blockchain.go. -/
def SignTransaction (c : Crypto) (chain : List Block) (priv : Nat)
    (tx : Transaction) : TxResult :=
  match collectPrevTXs chain tx.inputs with
  | none => .err .danglingRef
  | some m => Sign c priv m tx

/-- The input-building loop of `NewTransaction`: one `TxInput` per selected
output index, carrying the spender's raw public key. -/
def buildInputs (pk : Bytes) (sel : Sel) : List TxInput :=
  sel.foldl
    (fun acc p => acc ++ p.2.map
      (fun o => { id := p.1, out := o, signature := [], pubKey := pk })) []

/-- `tx.ID = tx.GenerateHash()`. -/
def idSet (c : Crypto) (t : Transaction) : Transaction :=
  { t with id := GenerateHash c t }

/-- `NewTransaction` from transaction.go (the public-key-hash era version):
look up the sender's wallet — the map holds `*Wallet` pointers, so a
missing entry is nil and the subsequent `w.PublicKey` access panics
(`nilWallet`) — find spendable outputs for the hashed public key, panic
when the accumulated value is below the amount, build one input per
selected output, one output paying `amount` to `to`, and — when the
accumulated value exceeds the amount — one change output of the excess
(which the source locks to `to`), then set the id and sign. -/
def NewTransaction (c : Crypto) (wallets : List (String × Wallet))
    (chain : List Block) (fromAddr toAddr : String) (amount : Int) : TxResult :=
  match wallets.lookup fromAddr with
  | none => .err .nilWallet
  | some w =>
    let acc := (FindSpendableOutputs c chain (c.pkh w.publicKey) amount).1
    let sel := (FindSpendableOutputs c chain (c.pkh w.publicKey) amount).2
    if acc < amount then .err .insufficientFunds
    else
      match NewTXOutput c amount toAddr with
      | none => .err .badAddress
      | some o1 =>
        if acc > amount then
          match NewTXOutput c (acc - amount) toAddr with
          | none => .err .badAddress
          | some o2 =>
            SignTransaction c chain w.privateKey (idSet c
              { id := [], inputs := buildInputs w.publicKey sel, outputs := [o1, o2] })
        else
          SignTransaction c chain w.privateKey (idSet c
            { id := [], inputs := buildInputs w.publicKey sel, outputs := [o1] })

/-! ## Proof of work (proof.go)

`src/blockchain/proof.go` is the data-era variant: its `InitData` reads
`pow.Block.Data`, a field the transactions-era `Block` no longer has.  The
data-era engine is embedded as-is on the data-era block type; the
transactions-era `InitData` is absent from `src/` and is modelled from the
spec where marked below.  The search loop, target and comparison are taken
from the source and shared by both eras. -/

/-- `Difficulty` from proof.go. -/
def Difficulty : Nat := 18

/-- `target = 1 << (256 - Difficulty)` interpreted as an unsigned big int. -/
def target : Nat := 1 <<< (256 - Difficulty)

/-- `math.MaxInt64`, the bound of the nonce search loop. -/
def maxInt64 : Nat := 2 ^ 63 - 1

/-- `binary.Write(buf, binary.BigEndian, num)` for an `int64`: the eight
big-endian bytes of the two's-complement representation. -/
def ToBytes (num : Int) : Bytes :=
  (List.range 8).map (fun i => ((num % (2 : Int) ^ 64).toNat / 256 ^ (7 - i)) % 256)

/-- The `Run` search loop: try nonces upward while `nonce < MaxInt64`,
stopping at the first digest below the target; when the bound is reached
the loop exits returning the bound and the last computed digest. -/
def runAux (H : Bytes → Bytes) (tgt : Nat) (data : Nat → Bytes) :
    Nat → Nat → Bytes → Nat × Bytes
  | 0, nonce, hsh => (nonce, hsh)
  | fuel + 1, nonce, _ =>
    if bytesToNat (H (data nonce)) < tgt then (nonce, H (data nonce))
    else runAux H tgt data fuel (nonce + 1) (H (data nonce))

/-- `Run` from proof.go: nonce starts at 0, `var hash [32]byte` is zeroed. -/
def powRun (H : Bytes → Bytes) (tgt : Nat) (data : Nat → Bytes) : Nat × Bytes :=
  runAux H tgt data maxInt64 0 (List.replicate 32 0)

/-- The data-era `Block` from block.go (the variant proof.go compiles
against). -/
structure BlockD where
  hash : Bytes
  data : Bytes
  prevHash : Bytes
  nonce : Int
deriving DecidableEq, Repr

/-- `InitData` from proof.go: `prevHash ‖ data ‖ nonce ‖ difficulty`. -/
def InitDataD (b : BlockD) (nonce : Int) : Bytes :=
  b.prevHash ++ b.data ++ ToBytes nonce ++ ToBytes (Difficulty : Int)

/-- `Run` on a data-era proof of work. -/
def RunD (c : Crypto) (b : BlockD) : Nat × Bytes :=
  powRun c.sha target (fun n => InitDataD b (n : Int))

/-- `Validate` from proof.go: recompute the digest at the stored nonce and
compare against the target. -/
def ValidateD (c : Crypto) (b : BlockD) : Bool :=
  decide (bytesToNat (c.sha (InitDataD b b.nonce)) < target)

/-- `CreateBlock` (data era): mine, then freeze hash and nonce. -/
def CreateBlockD (c : Crypto) (data prevHash : Bytes) : BlockD :=
  { hash := (RunD c { hash := [], data := data, prevHash := prevHash, nonce := 0 }).2
  , data := data
  , prevHash := prevHash
  , nonce := ((RunD c { hash := [], data := data, prevHash := prevHash, nonce := 0 }).1 : Int) }

/-- `HashTransactions` from block.go: hash of the concatenation of every
transaction's id in list order. -/
def HashTransactions (c : Crypto) (b : Block) : Bytes :=
  c.sha (List.flatten (b.transactions.map Transaction.id))

/-- Modelled from the spec: the transactions-era `InitData` is not under
`src/` (the `proof.go` there is the data-era variant reading the removed
`Data` field); per the spec §3/§4.1, the proof-of-work input is
`prevHash ‖ transactionsDigest ‖ bigEndianBytes(nonce) ‖ bigEndianBytes(difficulty)`
with `transactionsDigest = HashTransactions`. -/
def InitDataT (c : Crypto) (b : Block) (nonce : Int) : Bytes :=
  b.prevHash ++ HashTransactions c b ++ ToBytes nonce ++ ToBytes (Difficulty : Int)

/-- `Run` on a transactions-era proof of work. -/
def RunT (c : Crypto) (b : Block) : Nat × Bytes :=
  powRun c.sha target (fun n => InitDataT c b (n : Int))

/-- `Validate` on a transactions-era proof of work. -/
def ValidateT (c : Crypto) (b : Block) : Bool :=
  decide (bytesToNat (c.sha (InitDataT c b b.nonce)) < target)

/-- `CreateBlock` (transactions era, block.go): mine, then freeze hash and
nonce. -/
def CreateBlockT (c : Crypto) (txs : List Transaction) (prevHash : Bytes) : Block :=
  { hash := (RunT c { hash := [], transactions := txs, prevHash := prevHash, nonce := 0 }).2
  , transactions := txs
  , prevHash := prevHash
  , nonce := ((RunT c { hash := [], transactions := txs, prevHash := prevHash, nonce := 0 }).1 : Int) }

/-- The current tip hash, i.e. the value of the `lh` key: the head of the
tip-first block list. -/
def tipHash : List Block → Bytes
  | [] => []
  | b :: _ => b.hash

/-- `AddBlock` from blockchain.go: read the tip, mine a block on it, store
it and advance the tip (the new chain is the new block consed on). -/
def AddBlock (c : Crypto) (chain : List Block) (txs : List Transaction) :
    List Block :=
  CreateBlockT c txs (tipHash chain) :: chain

/-- `send` from cli.go: validate the destination address and then the
source address (panicking on an invalid one), build and sign the
transaction, then append a block containing it.  The pair returned is the
stored chain after the operation together with the error (if any): an
address-validation panic or a panic inside `NewTransaction` aborts the
command before `AddBlock` runs, leaving the stored chain untouched. -/
def send (c : Crypto) (wallets : List (String × Wallet)) (chain : List Block)
    (fromAddr toAddr : String) (amount : Int) : List Block × Option TxErr :=
  if !ValidateAddress c toAddr then (chain, some .invalidAddress)
  else if !ValidateAddress c fromAddr then (chain, some .invalidAddress)
  else
    match NewTransaction c wallets chain fromAddr toAddr amount with
    | .err e => (chain, some e)
    | .ok tx => (AddBlock c chain [tx], none)

/-! ## Block serialization (block.go)

Modelled from the spec: `Serialize`/`Deserialize` delegate to Go's
`encoding/gob`, an external standard-library encoder that is not part of
this repository; per §4.2 it is modelled as a binary encoding that
preserves field order and the exact byte values of `hash`, the full
transaction list (each input's signature and public key included),
`prevHash` and `nonce`.  The token alphabet is `Int` so that the `nonce`
and the `out` index are carried exactly. -/

/-- Encode a byte slice: its length, then its bytes. -/
def encBytes (b : Bytes) : List Int :=
  Int.ofNat b.length :: b.map Int.ofNat

/-- Encode a Go `int`. -/
def encInt (i : Int) : List Int := [i]

/-- Encode a list: its length, then the encoded elements in order. -/
def encList {α : Type} (f : α → List Int) (l : List α) : List Int :=
  Int.ofNat l.length :: (l.map f).flatten

/-- Encode a `TxInput` field by field. -/
def encTxInput (i : TxInput) : List Int :=
  encBytes i.id ++ encInt i.out ++ encBytes i.signature ++ encBytes i.pubKey

/-- Encode a `TxOutput` field by field. -/
def encTxOutput (o : TxOutput) : List Int :=
  encInt o.value ++ encBytes o.pubKeyHash

/-- Encode a `Transaction` field by field. -/
def encTx (t : Transaction) : List Int :=
  encBytes t.id ++ encList encTxInput t.inputs ++ encList encTxOutput t.outputs

/-- `Serialize` from block.go: the block's fields in declaration order. -/
def Serialize (b : Block) : List Int :=
  encBytes b.hash ++ encList encTx b.transactions ++ encBytes b.prevHash ++
    encInt b.nonce

/-- Decode a byte slice. -/
def decBytes : List Int → Option (Bytes × List Int)
  | [] => none
  | n :: rest =>
    if n.toNat ≤ rest.length then
      some ((rest.take n.toNat).map Int.toNat, rest.drop n.toNat)
    else none

/-- Decode a Go `int`. -/
def decInt : List Int → Option (Int × List Int)
  | [] => none
  | n :: rest => some (n, rest)

/-- Decode `count` elements with the given element decoder. -/
def decListAux {α : Type} (f : List Int → Option (α × List Int)) :
    Nat → List Int → Option (List α × List Int)
  | 0, l => some ([], l)
  | k + 1, l =>
    match f l with
    | none => none
    | some (a, l') =>
      match decListAux f k l' with
      | none => none
      | some (as, l'') => some (a :: as, l'')

/-- Decode a length-prefixed list. -/
def decList {α : Type} (f : List Int → Option (α × List Int)) :
    List Int → Option (List α × List Int)
  | [] => none
  | n :: rest => decListAux f n.toNat rest

/-- Decode a `TxInput`. -/
def decTxInput (l : List Int) : Option (TxInput × List Int) :=
  match decBytes l with
  | none => none
  | some (i, l1) =>
    match decInt l1 with
    | none => none
    | some (o, l2) =>
      match decBytes l2 with
      | none => none
      | some (s, l3) =>
        match decBytes l3 with
        | none => none
        | some (p, l4) =>
          some ({ id := i, out := o, signature := s, pubKey := p }, l4)

/-- Decode a `TxOutput`. -/
def decTxOutput (l : List Int) : Option (TxOutput × List Int) :=
  match decInt l with
  | none => none
  | some (v, l1) =>
    match decBytes l1 with
    | none => none
    | some (p, l2) => some ({ value := v, pubKeyHash := p }, l2)

/-- Decode a `Transaction`. -/
def decTx (l : List Int) : Option (Transaction × List Int) :=
  match decBytes l with
  | none => none
  | some (i, l1) =>
    match decList decTxInput l1 with
    | none => none
    | some (ins, l2) =>
      match decList decTxOutput l2 with
      | none => none
      | some (outs, l3) => some ({ id := i, inputs := ins, outputs := outs }, l3)

/-- `Deserialize` from block.go: decode the block's fields in order
(`none` models the decoding panic). -/
def Deserialize (l : List Int) : Option Block :=
  match decBytes l with
  | none => none
  | some (h, l1) =>
    match decList decTx l1 with
    | none => none
    | some (txs, l2) =>
      match decBytes l2 with
      | none => none
      | some (p, l3) =>
        match decInt l3 with
        | none => none
        | some (n, _) =>
          some { hash := h, transactions := txs, prevHash := p, nonce := n }

/-! ## Concrete instantiations used by counterexamples and witnesses -/

/-- A concrete, fully executable instantiation of the crypto primitives.
`ecdsaVerify` mirrors the r,s ∈ [1, N-1] range check with which Go's
`ecdsa.Verify` rejects a zero r or s. -/
def cT : Crypto :=
  { shaTx := fun _ => [4]
  , sha := fun _ => []
  , pkh := fun b => b
  , b58decode := fun s => if s = "B" then [0, 9, 9, 9, 0] else [0, 7, 7, 7, 0]
  , checksumLen := 1
  , ecdsaSign := fun _ _ => [6]
  , ecdsaVerify := fun _ _ _ r s => (r != 0) && (s != 0) }

/-- A second concrete instantiation whose double-sha checksum accepts the
test addresses (`sha` constantly `[0]`, so the recomputed one-byte
checksum matches the decoded addresses' trailing `0`), used where address
validation and wallet resolution must succeed. -/
def cV : Crypto :=
  { shaTx := fun _ => [4]
  , sha := fun _ => [0]
  , pkh := fun b => b
  , b58decode := fun s => if s = "B" then [0, 9, 9, 9, 0] else [0, 7, 7, 7, 0]
  , checksumLen := 1
  , ecdsaSign := fun _ _ => [6]
  , ecdsaVerify := fun _ _ _ r s => (r != 0) && (s != 0) }

/-- A resolvable predecessor transaction holding one output of value 100. -/
def prevT : Transaction :=
  { id := [5]
  , inputs := [{ id := [], out := -1, signature := [], pubKey := [] }]
  , outputs := [{ value := 100, pubKeyHash := [9] }] }

/-- The `prevTXs` map resolving id `[5]` to `prevT`. -/
def mT : List (Bytes × Transaction) := [([5], prevT)]

/-- A non-coinbase transaction with one input spending `prevT`'s output. -/
def txT : Transaction :=
  { id := [3]
  , inputs := [{ id := [5], out := 0, signature := [], pubKey := [8] }]
  , outputs := [{ value := 1, pubKeyHash := [9] }] }

/-- `txT` exactly as `Sign cT 0 mT` produces it (signature `[6]` filled in). -/
def txTs : Transaction :=
  { id := [3]
  , inputs := [{ id := [5], out := 0, signature := [6], pubKey := [8] }]
  , outputs := [{ value := 1, pubKeyHash := [9] }] }

/-- A coinbase-style transaction with two outputs locked to hash `[1]`. -/
def txTwoOuts : Transaction :=
  { id := [9]
  , inputs := [{ id := [], out := -1, signature := [], pubKey := [] }]
  , outputs := [{ value := 5, pubKeyHash := [1] }, { value := 7, pubKeyHash := [1] }] }

/-- A one-block chain whose only transaction is `txTwoOuts`. -/
def chainTwoOuts : List Block :=
  [{ hash := [2], transactions := [txTwoOuts], prevHash := [], nonce := 0 }]

/-- The genesis coinbase of the transfer scenario: one output of value 100
locked to the sender's public-key hash `[1]`. -/
def txGen : Transaction :=
  { id := [7]
  , inputs := [{ id := [], out := -1, signature := [], pubKey := [3] }]
  , outputs := [{ value := 100, pubKeyHash := [1] }] }

/-- The one-block chain holding `txGen`. -/
def chainGen : List Block :=
  [{ hash := [2], transactions := [txGen], prevHash := [], nonce := 0 }]

/-- The sender's wallet: public key `[1]` (hashed by `cT.pkh` to `[1]`). -/
def walletA : Wallet := { privateKey := 0, publicKey := [1] }

/-- The wallets file contents: address `A` owns `walletA`. -/
def walletsA : List (String × Wallet) := [("A", walletA)]

/-- An empty transactions-era block, used to exercise the proof of work. -/
def blockT0 : Block := { hash := [], transactions := [], prevHash := [], nonce := 0 }

/-- The fields of an input other than its signature. -/
def inputCore (i : TxInput) : Bytes × Int × Bytes := (i.id, i.out, i.pubKey)

/-- Two transactions agree on everything except, possibly, the signatures
stored in their inputs. -/
def FrameEq (a b : Transaction) : Prop :=
  a.id = b.id ∧ a.outputs = b.outputs ∧
    a.inputs.map inputCore = b.inputs.map inputCore

/-! ## Helper lemmas -/

theorem frameEq_refl (a : Transaction) : FrameEq a a := ⟨rfl, rfl, rfl⟩

theorem frameEq_trans {a b c : Transaction} (h1 : FrameEq a b) (h2 : FrameEq b c) :
    FrameEq a c :=
  ⟨h1.1.trans h2.1, h1.2.1.trans h2.2.1, h1.2.2.trans h2.2.2⟩

theorem map_inputCore_modifyIdx (s : Bytes) :
    ∀ (n : Nat) (l : List TxInput),
      (modifyIdx (fun j => { j with signature := s }) n l).map inputCore =
        l.map inputCore := by
  intro n l
  induction l generalizing n with
  | nil => cases n <;> rfl
  | cons a rest ih =>
    cases n with
    | zero => simp [modifyIdx, inputCore]
    | succ k => simp only [modifyIdx, List.map_cons]; rw [ih k]

theorem signLoop_frame (c : Crypto) (priv : Nat) (m : List (Bytes × Transaction)) :
    ∀ (fuel inID : Nat) (txCopy tx tx' : Transaction),
      signLoop c priv m fuel inID txCopy tx = .ok tx' → FrameEq tx' tx := by
  intro fuel
  induction fuel with
  | zero =>
    intro inID txCopy tx tx' hh
    simp only [signLoop] at hh
    injection hh with e
    subst e
    exact frameEq_refl tx
  | succ f ih =>
    intro inID txCopy tx tx' hh
    simp only [signLoop] at hh
    split at hh
    · injection hh with e
      subst e
      exact frameEq_refl tx
    · split at hh
      · exact TxResult.noConfusion hh
      · exact frameEq_trans (ih _ _ _ _ hh)
          ⟨rfl, rfl, map_inputCore_modifyIdx _ inID tx.inputs⟩

theorem runAux_first (H : Bytes → Bytes) (tgt : Nat) (data : Nat → Bytes) (n0 : Nat)
    (hp : bytesToNat (H (data n0)) < tgt)
    (hmin : ∀ m, m < n0 → ¬ bytesToNat (H (data m)) < tgt) :
    ∀ (fuel start : Nat) (h0 : Bytes), start ≤ n0 → n0 < start + fuel →
      runAux H tgt data fuel start h0 = (n0, H (data n0)) := by
  intro fuel
  induction fuel with
  | zero => intro start h0 hle hlt; omega
  | succ f ih =>
    intro start h0 hle hlt
    by_cases hc : bytesToNat (H (data start)) < tgt
    · have hse : start = n0 := by
        by_contra hne
        exact hmin start (lt_of_le_of_ne hle hne) hc
      subst hse
      simp [runAux, hc]
    · have hlt2 : start < n0 := by
        rcases lt_or_eq_of_le hle with hlt3 | he
        · exact hlt3
        · exact absurd (he ▸ hp) hc
      simp only [runAux, if_neg hc]
      exact ih (start + 1) (H (data start)) (by omega) (by omega)

theorem runAux_found (H : Bytes → Bytes) (tgt : Nat) (data : Nat → Bytes) :
    ∀ (fuel start : Nat) (h0 : Bytes) (n : Nat) (h : Bytes),
      runAux H tgt data fuel start h0 = (n, h) → n < start + fuel →
        h = H (data n) ∧ bytesToNat h < tgt := by
  intro fuel
  induction fuel with
  | zero =>
    intro start h0 n h heq hlt
    simp only [runAux] at heq
    injection heq with e1 e2
    omega
  | succ f ih =>
    intro start h0 n h heq hlt
    simp only [runAux] at heq
    by_cases hc : bytesToNat (H (data start)) < tgt
    · rw [if_pos hc] at heq
      injection heq with e1 e2
      subst e1
      subst e2
      exact ⟨rfl, hc⟩
    · rw [if_neg hc] at heq
      exact ih (start + 1) (H (data start)) n h heq (by omega)

theorem fsoOutputs_nonpos (h : Bytes) (amount : Int) (txid : Bytes)
    (ha : amount ≤ 0) :
    ∀ (outs : List TxOutput) (idx : Nat) (sel : Sel),
      fsoOutputs h amount txid outs idx 0 sel = (0, sel, false) := by
  intro outs
  induction outs with
  | nil => intro idx sel; rfl
  | cons o rest ih =>
    intro idx sel
    have hd : decide ((0 : Int) < amount) = false := decide_eq_false (not_lt.mpr ha)
    simp only [fsoOutputs, hd, Bool.and_false, Bool.false_eq_true, if_false]
    exact ih (idx + 1) sel

theorem fsoTxs_nonpos (h : Bytes) (amount : Int) (ha : amount ≤ 0) :
    ∀ (txs : List Transaction) (sel : Sel),
      fsoTxs h amount txs 0 sel = (0, sel) := by
  intro txs
  induction txs with
  | nil => intro sel; rfl
  | cons t rest ih =>
    intro sel
    simp only [fsoTxs, fsoOutputs_nonpos h amount t.id ha t.outputs 0 sel]
    exact ih sel

theorem toNat_ofNat_self (n : Nat) : (Int.ofNat n).toNat = n := rfl

theorem map_toNat_map_ofNat (b : Bytes) :
    (b.map Int.ofNat).map Int.toNat = b := by
  induction b with
  | nil => rfl
  | cons a rest ih => simp only [List.map_cons, toNat_ofNat_self, ih]

theorem take_len_append {α : Type} (l r : List α) : (l ++ r).take l.length = l := by
  induction l with
  | nil => rfl
  | cons a rest ih => simp only [List.cons_append, List.length_cons, List.take_succ_cons, ih]

theorem drop_len_append {α : Type} (l r : List α) : (l ++ r).drop l.length = r := by
  induction l with
  | nil => rfl
  | cons a rest ih => simp only [List.cons_append, List.length_cons, List.drop_succ_cons, ih]

theorem decBytes_enc (b : Bytes) (r : List Int) :
    decBytes (encBytes b ++ r) = some (b, r) := by
  have hlm : (b.map Int.ofNat).length = b.length := by
    simp only [List.length_map]
  have hc : b.length ≤ (b.map Int.ofNat ++ r).length := by
    rw [List.length_append, hlm]
    exact Nat.le_add_right _ _
  simp only [encBytes, List.cons_append, decBytes, toNat_ofNat_self]
  rw [if_pos hc, ← hlm, take_len_append, drop_len_append, map_toNat_map_ofNat]

theorem decInt_enc (i : Int) (r : List Int) : decInt (encInt i ++ r) = some (i, r) := rfl

theorem decListAux_enc {α : Type} (f : α → List Int)
    (dec : List Int → Option (α × List Int))
    (hfr : ∀ (a : α) (r : List Int), dec (f a ++ r) = some (a, r)) :
    ∀ (l : List α) (r : List Int),
      decListAux dec l.length ((l.map f).flatten ++ r) = some (l, r) := by
  intro l
  induction l with
  | nil => intro r; rfl
  | cons a rest ih =>
    intro r
    simp only [List.map_cons, List.flatten_cons, List.length_cons, List.append_assoc,
      decListAux, hfr a ((rest.map f).flatten ++ r), ih r]

theorem decList_enc {α : Type} (f : α → List Int)
    (dec : List Int → Option (α × List Int))
    (hfr : ∀ (a : α) (r : List Int), dec (f a ++ r) = some (a, r))
    (l : List α) (r : List Int) :
    decList dec (encList f l ++ r) = some (l, r) := by
  simp only [encList, List.cons_append, decList, toNat_ofNat_self]
  exact decListAux_enc f dec hfr l r

theorem decTxInput_enc (i : TxInput) (r : List Int) :
    decTxInput (encTxInput i ++ r) = some (i, r) := by
  cases i
  simp [encTxInput, decTxInput, List.append_assoc, decBytes_enc, decInt, encInt]

theorem decTxOutput_enc (o : TxOutput) (r : List Int) :
    decTxOutput (encTxOutput o ++ r) = some (o, r) := by
  cases o
  simp [encTxOutput, decTxOutput, List.append_assoc, decBytes_enc, decInt, encInt]

theorem decTx_enc (t : Transaction) (r : List Int) :
    decTx (encTx t ++ r) = some (t, r) := by
  cases t
  simp [encTx, decTx, List.append_assoc, decBytes_enc,
    decList_enc encTxInput decTxInput decTxInput_enc,
    decList_enc encTxOutput decTxOutput decTxOutput_enc]

/-! ## Claim theorems -/

/-- C1: in the transfer built by `NewTransaction(from, to, amount)` on a
chain giving the sender one spendable output of 100, with amount 30, the
result has one input per selected output carrying the spender's raw public
key and a first output paying 30 to `to` — but the change output of 70 is
locked to `to`'s key hash `[9,9,9]`, not to `from`'s key hash `[7,7,7]`:
the code passes `to` to `NewTXOutput` for the change, contradicting the
claim (and its own comment "credit excess back to sender"). -/
theorem newTransaction_change_locked_to_recipient :
    NewTransaction cT walletsA chainGen "A" "B" 30 =
      .ok { id := [4]
          , inputs := [{ id := [7], out := 0, signature := [6], pubKey := [1] }]
          , outputs := [{ value := 30, pubKeyHash := [9, 9, 9] }
                       , { value := 70, pubKeyHash := [9, 9, 9] }] } ∧
    Lock cT "B" = some [9, 9, 9] ∧ Lock cT "A" = some [7, 7, 7] ∧
    ([9, 9, 9] : Bytes) ≠ [7, 7, 7] := by decide

/-- C2: for a freshly signed one-input transaction with a resolvable
predecessor, `Verify` returns `false`, not `true` — the verification loop
reads each input's signature and public key from the trimmed copy (where
both were cleared), so `ecdsa.Verify` is called with r = s = 0 and
x = y = 0 and rejects; mutating an output value and re-verifying also
returns `false` (trivially, for the same reason). -/
theorem verify_rejects_freshly_signed :
    Sign cT 0 mT txT = .ok txTs ∧
    Verify cT mT txTs = .ok false ∧
    Verify cT mT { txTs with outputs := [{ value := 2, pubKeyHash := [9] }] } =
      .ok false := by decide

/-- C3: on a one-block chain whose only (coinbase) transaction has two
unspent outputs locked to `[1]`, `FindUnspentTxOutputs` returns each of
the two outputs twice (four entries in all), because the scan appends the
owning transaction once per matching output and the collection pass then
re-emits every matching output of each appended copy — refuting the claim
that each unspent output appears exactly once. -/
theorem findUnspentTxOutputs_duplicates :
    FindUnspentTxOutputs cT chainTwoOuts [1] =
      [{ value := 5, pubKeyHash := [1] }, { value := 7, pubKeyHash := [1] },
       { value := 5, pubKeyHash := [1] }, { value := 7, pubKeyHash := [1] }] ∧
    (FindUnspentTxOutputs cT chainTwoOuts [1]).count
      { value := 5, pubKeyHash := [1] } = 2 := by decide

/-- C4: the byte string hashed by the transactions-era proof of work —
the digest `Run` accepts and the digest `Validate` recomputes — is
`prevHash ‖ sha256(id₁ ‖ … ‖ idₖ) ‖ bigEndian64(nonce) ‖ bigEndian64(difficulty)`,
so mining commits to the block's transaction ids.  (The transactions-era
`InitData` is modelled from the spec; `HashTransactions` and `ToBytes` are
embedded from the source.) -/
theorem pow_digest_commits_to_transactions (c : Crypto) (b : Block)
    (n : Nat) (h : Bytes) (hrun : RunT c b = (n, h)) (hn : n < maxInt64) :
    h = c.sha (b.prevHash ++ c.sha (List.flatten (b.transactions.map Transaction.id)) ++
          ToBytes (n : Int) ++ ToBytes (Difficulty : Int)) ∧
    bytesToNat h < target ∧
    ValidateT c b = decide
      (bytesToNat (c.sha (b.prevHash ++
        c.sha (List.flatten (b.transactions.map Transaction.id)) ++
        ToBytes b.nonce ++ ToBytes (Difficulty : Int))) < target) := by
  have hfound := runAux_found c.sha target (fun k => InitDataT c b (k : Int))
    maxInt64 0 (List.replicate 32 0) n h hrun (by omega)
  exact ⟨hfound.1, hfound.2, rfl⟩

theorem pow_digest_commits_to_transactions_witness :
    ([] : Bytes) = cT.sha (InitDataT cT blockT0 0) ∧
    bytesToNat [] < target ∧
    ValidateT cT blockT0 = decide
      (bytesToNat (cT.sha (InitDataT cT blockT0 blockT0.nonce)) < target) :=
  pow_digest_commits_to_transactions cT blockT0 0 [] (by decide) (by decide)

/-- C5: `TrimmedCopy` copies the inputs with signature and public key
cleared as claimed, but its outputs list is ALWAYS empty — the source
does `copy(newTx.Outputs, tx.Outputs)` into a nil slice, which copies
zero elements — so the outputs are not equal to the original's whenever
the original has any output (e.g. `txT`). -/
theorem trimmedCopy_drops_outputs :
    ∀ tx : Transaction,
      (TrimmedCopy tx).inputs = tx.inputs.map
        (fun i => { id := i.id, out := i.out, signature := [], pubKey := [] }) ∧
      (TrimmedCopy tx).id = [] ∧
      (TrimmedCopy tx).outputs = [] ∧
      (TrimmedCopy txT).outputs ≠ txT.outputs := by
  intro tx
  refine ⟨rfl, rfl, ?_, by decide⟩
  simp [TrimmedCopy, golangCopy]

/-- C6: whenever some nonce below the search bound yields a digest
strictly below `target = 1 <<< (256 - 18)`, the data-era `Run` returns the
least such nonce together with its digest, and `Validate` accepts the
block completed by `CreateBlock` with that nonce and hash. -/
theorem run_finds_least_nonce_and_validates (c : Crypto) (data prevHash : Bytes)
    (n0 : Nat)
    (hmin : ∀ m, m < n0 →
      ¬ bytesToNat (c.sha (InitDataD
          { hash := [], data := data, prevHash := prevHash, nonce := 0 } (m : Int))) < target)
    (hp : bytesToNat (c.sha (InitDataD
        { hash := [], data := data, prevHash := prevHash, nonce := 0 } (n0 : Int))) < target)
    (hb : n0 < maxInt64) :
    RunD c { hash := [], data := data, prevHash := prevHash, nonce := 0 } =
      (n0, c.sha (InitDataD
        { hash := [], data := data, prevHash := prevHash, nonce := 0 } (n0 : Int))) ∧
    CreateBlockD c data prevHash =
      { hash := c.sha (InitDataD
          { hash := [], data := data, prevHash := prevHash, nonce := 0 } (n0 : Int))
      , data := data, prevHash := prevHash, nonce := (n0 : Int) } ∧
    ValidateD c (CreateBlockD c data prevHash) = true := by
  have h1 : RunD c { hash := [], data := data, prevHash := prevHash, nonce := 0 } =
      (n0, c.sha (InitDataD
        { hash := [], data := data, prevHash := prevHash, nonce := 0 } (n0 : Int))) := by
    unfold RunD powRun
    exact runAux_first c.sha target _ n0 hp hmin maxInt64 0 _ (Nat.zero_le _) (by omega)
  have h2 : CreateBlockD c data prevHash =
      { hash := c.sha (InitDataD
          { hash := [], data := data, prevHash := prevHash, nonce := 0 } (n0 : Int))
      , data := data, prevHash := prevHash, nonce := (n0 : Int) } := by
    unfold CreateBlockD
    rw [h1]
  refine ⟨h1, h2, ?_⟩
  rw [h2]
  unfold ValidateD
  exact decide_eq_true hp

theorem run_finds_least_nonce_and_validates_witness :
    RunD cT { hash := [], data := [3], prevHash := [2], nonce := 0 } =
      (0, cT.sha (InitDataD { hash := [], data := [3], prevHash := [2], nonce := 0 } 0)) ∧
    CreateBlockD cT [3] [2] =
      { hash := cT.sha (InitDataD { hash := [], data := [3], prevHash := [2], nonce := 0 } 0)
      , data := [3], prevHash := [2], nonce := 0 } ∧
    ValidateD cT (CreateBlockD cT [3] [2]) = true :=
  run_finds_least_nonce_and_validates cT [3] [2] 0
    (fun m hm => absurd hm (Nat.not_lt_zero m)) (by decide) (by decide)

/-- C7: for valid source and destination addresses and a resolvable
sender wallet, when the accumulated spendable value for the sender's key
hash is below the requested amount, `send` surfaces the
insufficient-funds panic raised inside `NewTransaction` before `AddBlock`
runs: no block is mined or stored and the chain (block set and tip) is
returned unchanged. -/
theorem send_insufficient_funds_no_block (c : Crypto)
    (wallets : List (String × Wallet)) (chain : List Block)
    (fromAddr toAddr : String) (amount : Int) (w : Wallet)
    (hvt : ValidateAddress c toAddr = true)
    (hvf : ValidateAddress c fromAddr = true)
    (hw : wallets.lookup fromAddr = some w)
    (hacc : (FindSpendableOutputs c chain (c.pkh w.publicKey) amount).1 < amount) :
    send c wallets chain fromAddr toAddr amount =
      (chain, some TxErr.insufficientFunds) := by
  have hnt : NewTransaction c wallets chain fromAddr toAddr amount =
      .err .insufficientFunds := by
    simp only [NewTransaction, hw]
    rw [if_pos hacc]
  simp [send, hvt, hvf, hnt]

theorem send_insufficient_funds_no_block_witness :
    send cV walletsA chainGen "A" "B" 200 =
      (chainGen, some TxErr.insufficientFunds) :=
  send_insufficient_funds_no_block cV walletsA chainGen "A" "B" 200 walletA
    (by decide) (by decide) (by decide) (by decide)

/-- C8: `Deserialize ∘ Serialize` is the identity on every block — in
particular on a genesis-style block (empty `prevHash`, one coinbase
transaction) and on multi-transaction blocks with signed inputs — with
the field order and the exact values of `hash`, the transaction list
(signatures and public keys included), `prevHash` and `nonce` preserved.
(The gob encoding itself is external; see the codec's header comment.) -/
theorem serialize_deserialize_roundtrip :
    ∀ b : Block, Deserialize (Serialize b) = some b := by
  intro b
  cases b
  simp [Serialize, Deserialize, List.append_assoc, decBytes_enc, decInt, encInt,
    decList_enc encTx decTx decTx_enc]

/-- C9: `Sign` changes at most the `Signature` field of the transaction's
inputs: whenever it succeeds, the result agrees with the original on the
id, the outputs, and every input's referenced id, output index and public
key; and a coinbase transaction is returned entirely unchanged. -/
theorem sign_modifies_only_signatures (c : Crypto) (priv : Nat)
    (m : List (Bytes × Transaction)) (tx tx' : Transaction)
    (h : Sign c priv m tx = .ok tx') :
    FrameEq tx' tx ∧ (IsCoinbase tx = true → tx' = tx) := by
  by_cases hcb : IsCoinbase tx
  · rw [Sign, if_pos hcb] at h
    injection h with e
    subst e
    exact ⟨frameEq_refl tx, fun _ => rfl⟩
  · by_cases hchk : signCheck m tx.inputs
    · rw [Sign, if_neg hcb, if_pos hchk] at h
      exact ⟨signLoop_frame c priv m _ 0 _ tx tx' h, fun hc => absurd hc hcb⟩
    · rw [Sign, if_neg hcb, if_neg hchk] at h
      exact TxResult.noConfusion h

theorem sign_modifies_only_signatures_witness :
    FrameEq txTs txT ∧ (IsCoinbase txT = true → txTs = txT) :=
  sign_modifies_only_signatures cT 0 mT txT txTs (by decide)

/-- C10: `FindSpendableOutputs` with a non-positive amount accumulates
nothing — it returns 0 and the empty selection — and consequently, when
the sender's wallet resolves and the destination address decodes in
range for `Lock` (otherwise the source panics earlier, modelled as
errors), a zero-amount `NewTransaction` is not rejected as insufficient
funds and yields a transaction with no inputs (one output paying 0 to
`to`, no change output). -/
theorem findSpendableOutputs_nonpositive_amount (c : Crypto)
    (chain : List Block) (h : Bytes) (wallets : List (String × Wallet))
    (fromAddr toAddr : String) (amount : Int) (w : Wallet) (o : TxOutput)
    (ha : amount ≤ 0)
    (hw : wallets.lookup fromAddr = some w)
    (ht : NewTXOutput c 0 toAddr = some o) :
    FindSpendableOutputs c chain h amount = (0, []) ∧
    NewTransaction c wallets chain fromAddr toAddr 0 =
      .ok (idSet c { id := [], inputs := [], outputs := [o] }) := by
  refine ⟨?_, ?_⟩
  · unfold FindSpendableOutputs
    exact fsoTxs_nonpos h amount ha _ []
  · have hfso0 : FindSpendableOutputs c chain (c.pkh w.publicKey) 0 = (0, []) := by
      unfold FindSpendableOutputs
      exact fsoTxs_nonpos _ 0 le_rfl _ []
    simp only [NewTransaction, hw, hfso0, ht]
    rfl

theorem findSpendableOutputs_nonpositive_amount_witness :
    FindSpendableOutputs cV chainGen [1] 0 = (0, []) ∧
    NewTransaction cV walletsA chainGen "A" "B" 0 =
      .ok (idSet cV { id := [], inputs := []
                    , outputs := [{ value := 0, pubKeyHash := [9, 9, 9] }] }) :=
  findSpendableOutputs_nonpositive_amount cV chainGen [1] walletsA "A" "B" 0
    walletA { value := 0, pubKeyHash := [9, 9, 9] }
    (by decide) (by decide) (by decide)

end GoChain
